import Mathlib

/-!
Verification development for the Secure Scoped File Access & Search Subsystem
of DesktopCommanderMCP.

The definitions below are shallow embeddings of the TypeScript sources:

* `src/src/utils/security.ts` — `isPathAllowed` (the admission predicate);
* `src/src/utils/windowsPathFix.ts` — `expandHome`, `toAbsolutePath`;
* `src/src/tools/filesystem.ts` — `validatePath`, the line-addressable reader
  (`readFileWithSmartPositioning` and its four strategies), `readFileInternal`,
  `splitLinesPreservingEndings`, and `searchFiles`;
* the search module — `checkRipgrepAvailability`, `searchCode`,
  `searchCodeFallback`.

Strings model file contents byte-for-byte for ASCII data (one `Char` per
byte); path semantics are embedded for the POSIX platform (forward-slash
separators, absolute paths), with the Windows-only comparison branch of
`isPathAllowed` represented by an explicit case-folding flag.
-/

namespace DCMC

/-! ### Character-list string primitives

JavaScript's `String.prototype.includes` / `startsWith` and `split` are
embedded as executable functions on `List Char`. -/

/-- Boolean test that `pat` is a leading segment of `s` (character lists). -/
def chPref : List Char → List Char → Bool
  | [], _ => true
  | _ :: _, [] => false
  | a :: as, b :: bs => a == b && chPref as bs

/-- Boolean test that `pat` occurs contiguously somewhere inside `s`;
embeds JavaScript `s.includes(pat)`. -/
def chInside (pat : List Char) : List Char → Bool
  | [] => chPref pat []
  | a :: rest => chPref pat (a :: rest) || chInside pat rest

/-- JavaScript `s.includes(pat)` on strings. -/
def strContains (s pat : String) : Bool :=
  chInside pat.data s.data

/-- JavaScript `s.startsWith(pre)` on strings. -/
def strStartsWith (s pre : String) : Bool :=
  chPref pre.data s.data

/-- Split a character list at every occurrence of the separator character,
keeping empty pieces; embeds JavaScript `s.split(sep)` (which, for a
one-character separator, always returns at least one piece). -/
def splitCharsOn (sep : Char) : List Char → List (List Char)
  | [] => [[]]
  | c :: rest =>
    if c == sep then [] :: splitCharsOn sep rest
    else
      match splitCharsOn sep rest with
      | [] => [[c]]
      | l :: ls => (c :: l) :: ls

/-- JavaScript `content.split('\n')`. -/
def splitNl (s : String) : List String :=
  (splitCharsOn '\n' s.data).map (fun l => ⟨l⟩)

/-- JavaScript `s.split('/')`, used to embed POSIX path segmentation. -/
def splitSlash (s : String) : List String :=
  (splitCharsOn '/' s.data).map (fun l => ⟨l⟩)

/-- Case-fold a string when the flag is set; embeds the
`s.toLowerCase()` calls guarded by the `os.platform() === 'win32'` test. -/
def lowerIf (b : Bool) (s : String) : String :=
  if b then ⟨s.data.map Char.toLower⟩ else s

/-- Join a list of strings with a separator; embeds `array.join(sep)`. -/
def joinWith (sep : String) : List String → String
  | [] => ""
  | [x] => x
  | x :: y :: rest => x ++ sep ++ joinWith sep (y :: rest)

/-- Join a list of strings with no separator; embeds `array.join('')`. -/
def joinAll : List String → String
  | [] => ""
  | x :: rest => x ++ joinAll rest

/-- JavaScript `array.slice(-n)` for `n ≥ 1`: the last `n` elements
(the whole list when it has fewer than `n`). -/
def takeLast (n : Nat) (l : List α) : List α :=
  l.drop (l.length - n)

/-! ### POSIX path normalization

`path.resolve` / `path.normalize` for the POSIX platform: split on `/`,
drop empty and `.` segments, let `..` pop the previous segment (at the
root it disappears, as `path.resolve` guarantees for absolute paths). -/

/-- Segment collapsing stack: processes the segment list left to right with
the already-kept segments in reverse order in `acc`. -/
def collapseSegs : List String → List String → List String
  | acc, [] => acc.reverse
  | acc, "" :: rest => collapseSegs acc rest
  | acc, "." :: rest => collapseSegs acc rest
  | acc, ".." :: rest => collapseSegs (acc.drop 1) rest
  | acc, seg :: rest => collapseSegs (seg :: acc) rest

/-- Normalization of an absolute POSIX path: collapses `.`/`..` segments and
redundant separators; embeds `path.normalize` on an absolute input. -/
def posixNormalizeAbs (s : String) : String :=
  "/" ++ joinWith "/" (collapseSegs [] (splitSlash s))

/-- Embeds `path.resolve(p)` for the POSIX platform with working directory `cwd`
(an absolute path): prepends `cwd` when `p` is relative, then collapses. -/
def posixResolve (cwd p : String) : String :=
  posixNormalizeAbs (if strStartsWith p "/" then p else cwd ++ "/" ++ p)

/-- Embeds `path.normalize(path.resolve(p))` as written at the top of
`isPathAllowed` in `src/src/utils/security.ts`. -/
def normResolve (cwd p : String) : String :=
  posixNormalizeAbs (posixResolve cwd p)

/-! ### Path admission (`src/src/utils/security.ts`, `isPathAllowed`)

`isWin` embeds the `os.platform() === 'win32'` branch: it selects the
case-folded comparison and the platform separator appended for the
nested-under test. -/

/-- Embeds `path.sep` for the two platforms. -/
def platformSep (isWin : Bool) : String :=
  if isWin then "\\" else "/"

/-- Embeds `isPathAllowed(targetPath, allowedDirs)` from
`src/src/utils/security.ts`: normalize-resolve the target, reject any result
still containing the substring `..`, then test equality-or-nested-under
against each allowed directory with a trailing-separator-qualified prefix
match (case-folded on Windows). -/
def isPathAllowed_sec (isWin : Bool) (cwd targetPath : String)
    (allowedDirs : List String) : Bool :=
  let normalizedPath := normResolve cwd targetPath
  if strContains normalizedPath ".." then false
  else
    allowedDirs.any (fun dir =>
      let normalizedDir := normResolve cwd dir
      let p := lowerIf isWin normalizedPath
      let d := lowerIf isWin normalizedDir
      p == d || strStartsWith p (d ++ platformSep isWin))

/-- Reasons a path can be refused by the admission gate, following the
spec's `PathDecision` taxonomy restricted to the two checks the code
actually performs. -/
inductive DenyReason where
  | traversal
  | outsideRoots
deriving DecidableEq, Repr

/-- Admission decision annotated with which of the two sequential checks
of `isPathAllowed` produced a denial: the `..`-substring check first, the
allowed-roots membership check second. -/
inductive AdmitResult where
  | allowed
  | denied (r : DenyReason)
deriving DecidableEq, Repr

/-- The control flow of `isPathAllowed` with the denial branch recorded:
`denied .traversal` is the early `normalizedPath.includes('..')` return,
`denied .outsideRoots` the failed `allowedDirs.some(...)` test. -/
def admitDecision (isWin : Bool) (cwd targetPath : String)
    (allowedDirs : List String) : AdmitResult :=
  let normalizedPath := normResolve cwd targetPath
  if strContains normalizedPath ".." then .denied .traversal
  else if allowedDirs.any (fun dir =>
      let normalizedDir := normResolve cwd dir
      let p := lowerIf isWin normalizedPath
      let d := lowerIf isWin normalizedDir
      p == d || strStartsWith p (d ++ platformSep isWin)) then .allowed
  else .denied .outsideRoots

/-- The admission predicate as claim C2 words it: the canonicalized absolute
form of the target equals some canonicalized member of the allowed set or is
nested under one, tested by a trailing-separator-qualified prefix match under
the platform case policy. Written from the spec's sentence for comparison
with `isPathAllowed_sec`. -/
def specAdmit (isWin : Bool) (cwd targetPath : String)
    (allowedDirs : List String) : Bool :=
  let canonical := normResolve cwd targetPath
  allowedDirs.any (fun dir =>
    let canonicalDir := normResolve cwd dir
    let p := lowerIf isWin canonical
    let d := lowerIf isWin canonicalDir
    p == d || strStartsWith p (d ++ platformSep isWin))

/-! ### `validatePath` (`src/src/tools/filesystem.ts`)

The filesystem is abstracted to an existence predicate plus a symlink
resolution map (`fs.stat` succeeding and `fs.realpath`). Telemetry and the
validation timeout wrapper carry no return value and are dropped. -/

/-- Abstract filesystem state seen by `validatePath`: which absolute paths
exist, and what `fs.realpath` resolves each existing path to. -/
structure SymFS where
  pathExists : String → Bool
  realpathOf : String → String

/-- Embeds `expandHome` from `src/src/utils/windowsPathFix.ts` (POSIX):
`~` becomes the home directory, `~/rest` becomes `home` joined with
`/rest`; everything else is returned unchanged. -/
def expandHome (home p : String) : String :=
  if p == "~" then home
  else if strStartsWith p "~/" then home ++ String.mk (p.data.drop 1)
  else p

/-- Embeds `toAbsolutePath` from `src/src/utils/windowsPathFix.ts` for the
POSIX platform, restricted to inputs that are absolute or home-relative
(`~`, `~/...`) — for such inputs the source's `path.normalize` followed by
home expansion and `path.resolve` amounts to expanding the home shorthand
and collapsing the resulting absolute path. -/
def toAbsolutePath (home p : String) : String :=
  posixNormalizeAbs (expandHome home p)

/-- Embeds the `isPathAllowed` wrapper in `src/src/tools/filesystem.ts`:
an empty allowed set denies everything, otherwise the security module's
predicate decides. -/
def isPathAllowed_fs (isWin : Bool) (cwd : String) (allowedDirectories : List String)
    (pathToCheck : String) : Bool :=
  if allowedDirectories.isEmpty then false
  else isPathAllowed_sec isWin cwd pathToCheck allowedDirectories

/-- Result of `validatePath`: the admitted path, or the thrown
"Path not allowed" error. -/
inductive ValidateResult where
  | ok (path : String)
  | notAllowed
deriving DecidableEq, Repr

/-- Embeds `validatePath(requestedPath)` from `src/src/tools/filesystem.ts`:
convert to an absolute path, throw unless the absolute path is admitted,
then return `fs.realpath(absolute)` when the path exists; when it does not
exist, both arms of the parent-directory validation return `absolute`
unchanged, so the model returns `absolute` directly. -/
def validatePath_model (fs : SymFS) (isWin : Bool) (cwd home : String)
    (allowedDirectories : List String) (requestedPath : String) : ValidateResult :=
  let absolute := toAbsolutePath home requestedPath
  if !(isPathAllowed_fs isWin cwd allowedDirectories absolute) then .notAllowed
  else if fs.pathExists absolute then .ok (fs.realpathOf absolute)
  else .ok absolute

/-- Filesystem with a single symlink `/workspace/link` whose target is
`/etc/passwd`, outside the allowed set `[/workspace]`. -/
def symlinkFS : SymFS where
  pathExists := fun s => s == "/workspace/link"
  realpathOf := fun s => if s == "/workspace/link" then "/etc/passwd" else s

/-! ### Claims C1–C3 -/

/-- C1, counterexample. The claim states that the canonical path returned by
`validatePath` always equals or is nested under some allowed directory. On
the filesystem `symlinkFS`, with allowed set `[/workspace]`, the request
`/workspace/link` is admitted and `validatePath` returns the symlink target
`/etc/passwd`, yet that returned path is itself refused by the admission
predicate — the canonical result escapes the allowed set. -/
theorem c1_symlink_escape_counterexample :
    validatePath_model symlinkFS false "/" "/home/u" ["/workspace"] "/workspace/link"
      = .ok "/etc/passwd" ∧
    isPathAllowed_fs false "/" ["/workspace"] "/etc/passwd" = false := by
  decide

/-- C1, amended. For an admitted path that exists, `validatePath` returns the
symlink-resolved real path of the requested path; but the admission check is
applied only to the pre-resolution absolute form, so (per the counterexample)
the returned canonical path need not lie within the allowed set. -/
theorem c1_realpath_of_existing (fs : SymFS) (isWin : Bool) (cwd home : String)
    (A : List String) (p : String)
    (hAdm : isPathAllowed_fs isWin cwd A (toAbsolutePath home p) = true)
    (hEx : fs.pathExists (toAbsolutePath home p) = true) :
    validatePath_model fs isWin cwd home A p = .ok (fs.realpathOf (toAbsolutePath home p)) := by
  unfold validatePath_model
  simp [hAdm, hEx]

/-- Witness for `c1_realpath_of_existing` at the concrete symlink filesystem. -/
theorem c1_realpath_of_existing_witness :
    validatePath_model symlinkFS false "/" "/home/u" ["/workspace"] "/workspace/link"
      = .ok (symlinkFS.realpathOf (toAbsolutePath "/home/u" "/workspace/link")) :=
  c1_realpath_of_existing symlinkFS false "/" "/home/u" ["/workspace"] "/workspace/link"
    (by decide) (by decide)

/-- C2, counterexample. The claim's characterization ("admitted iff the
canonicalized form equals or is nested under some member") fails: the path
`/workspace/a..b` canonicalizes to itself, is nested under the allowed
directory `/workspace` (so `specAdmit` holds), yet `isPathAllowed` denies it
because its normalized form contains the substring `..` inside a file name. -/
theorem c2_admission_iff_counterexample :
    specAdmit false "/" "/workspace/a..b" ["/workspace"] = true ∧
    isPathAllowed_sec false "/" "/workspace/a..b" ["/workspace"] = false := by
  decide

/-- C2, amended. Admission succeeds iff the normalized absolute form of the
target contains no occurrence of the substring `..` AND equals or is nested
under some canonicalized member of the allowed set (trailing-separator
prefix match, case-folded on Windows). -/
theorem c2_admission_characterization (isWin : Bool) (cwd p : String) (A : List String) :
    isPathAllowed_sec isWin cwd p A
      = (!strContains (normResolve cwd p) ".." && specAdmit isWin cwd p A) := by
  unfold isPathAllowed_sec specAdmit
  cases h : strContains (normResolve cwd p) ".." <;> simp [h]

/-- C3, counterexample. The claim says `gate("/workspace/../etc/passwd")`
with allowed set `[/workspace]` is denied with a traversal reason. The code
denies it, but not via the traversal branch: normalization collapses the
`..` segment to `/etc/passwd` before the substring check runs, so the
denial comes from the outside-allowed-roots branch instead. -/
theorem c3_traversal_reason_counterexample :
    admitDecision false "/" "/workspace/../etc/passwd" ["/workspace"]
      = .denied .outsideRoots ∧
    admitDecision false "/" "/workspace/../etc/passwd" ["/workspace"]
      ≠ .denied .traversal := by
  decide

/-- C3, amended. Any path whose normalized form still contains the substring
`..` (after full collapsing this can only arise inside a path component's
name) is denied by admission regardless of the allowed set; and the claim's
example `/workspace/../etc/passwd` is indeed denied — but by the
outside-roots check, since its normalized form `/etc/passwd` contains no
`..` (see the counterexample for the reason attribution). -/
theorem c3_dotdot_always_denied :
    (∀ (isWin : Bool) (cwd p : String) (A : List String),
      strContains (normResolve cwd p) ".." = true →
      isPathAllowed_sec isWin cwd p A = false) ∧
    isPathAllowed_sec false "/" "/workspace/../etc/passwd" ["/workspace"] = false := by
  constructor
  · intro isWin cwd p A h
    unfold isPathAllowed_sec
    simp [h]
  · decide

/-- Witness for `c3_dotdot_always_denied` at a path whose normalized form
keeps a `..` substring inside a file name. -/
theorem c3_dotdot_always_denied_witness :
    strContains (normResolve "/" "/workspace/a..b") ".." = true ∧
    isPathAllowed_sec false "/" "/workspace/a..b" ["/workspace"] = false :=
  ⟨by decide, c3_dotdot_always_denied.1 false "/" "/workspace/a..b" ["/workspace"] (by decide)⟩

/-! ### Reader constants (`src/src/tools/filesystem.ts`, constants section) -/

/-- Constant `FILE_SIZE_LIMITS.LARGE_FILE_THRESHOLD` (10 MB). -/
def LARGE_FILE_THRESHOLD : Nat := 10 * 1024 * 1024

/-- Constant `FILE_SIZE_LIMITS.LINE_COUNT_LIMIT` (10 MB). -/
def LINE_COUNT_LIMIT : Nat := 10 * 1024 * 1024

/-- Constant `READ_PERFORMANCE_THRESHOLDS.SMALL_READ_THRESHOLD`. -/
def SMALL_READ_THRESHOLD : Nat := 100

/-- Constant `READ_PERFORMANCE_THRESHOLDS.DEEP_OFFSET_THRESHOLD`. -/
def DEEP_OFFSET_THRESHOLD : Nat := 1000

/-- Constant `READ_PERFORMANCE_THRESHOLDS.SAMPLE_SIZE`. -/
def SAMPLE_SIZE : Nat := 10000

/-- Constant `READ_PERFORMANCE_THRESHOLDS.CHUNK_SIZE` (8 KB reverse-read chunks). -/
def CHUNK_SIZE : Nat := 8192

/-- JavaScript `Number.MAX_SAFE_INTEGER`. -/
def MAX_SAFE_INTEGER : Nat := 2 ^ 53 - 1

/-! ### Line splitting

Two line models appear in the source: `content.split('\n')` (used by
`countLines` and by the backward chunked tail reader) keeps a trailing empty
entry for newline-terminated content, while Node's `readline` interface
(used by the forward readers) strips the terminators `\r\n`, `\n`, `\r` and
emits no final empty line after a trailing terminator. -/

/-- Node `readline` line records of a character stream: terminators `\r\n`,
`\n` and lone `\r` end a line and are stripped; a final unterminated piece
is emitted only when non-empty. -/
def readlineChars (cur : List Char) : List Char → List (List Char)
  | [] => if cur.isEmpty then [] else [cur]
  | '\r' :: '\n' :: rest => cur :: readlineChars [] rest
  | '\n' :: rest => cur :: readlineChars [] rest
  | '\r' :: rest => cur :: readlineChars [] rest
  | c :: rest => readlineChars (cur ++ [c]) rest

/-- The list of lines Node `readline` (with `crlfDelay: Infinity`) emits for
a file with the given content. -/
def readlineSplit (s : String) : List String :=
  (readlineChars [] s.data).map (fun l => ⟨l⟩)

/-- Embeds `countLines` from `src/src/tools/filesystem.ts`:
`content.split('\n').length`. -/
def countLines (content : String) : Nat :=
  (splitNl content).length

/-- Embeds `getFileLineCount` from `src/src/tools/filesystem.ts`: counts lines only
for files below `LINE_COUNT_LIMIT`, otherwise reports no total. -/
def getFileLineCount_model (content : String) : Option Nat :=
  if content.data.length < LINE_COUNT_LIMIT then some (countLines content) else none

/-! ### `splitLinesPreservingEndings` and `readFileInternal`
(`src/src/tools/filesystem.ts`) -/

/-- The character loop of `splitLinesPreservingEndings`: a line ends after
`\n`, after `\r\n` (consumed as one ending), or after a lone `\r`; each
line keeps its ending; leftover characters form a final line. -/
def splitPE (cur : List Char) : List Char → List (List Char)
  | [] => if cur.isEmpty then [] else [cur]
  | '\n' :: rest => (cur ++ ['\n']) :: splitPE [] rest
  | '\r' :: '\n' :: rest => (cur ++ ['\r', '\n']) :: splitPE [] rest
  | '\r' :: rest => (cur ++ ['\r']) :: splitPE [] rest
  | c :: rest => splitPE (cur ++ [c]) rest

/-- Embeds `splitLinesPreservingEndings(content)`: empty content yields `[""]`,
otherwise the terminator-preserving split of the character sequence. -/
def splitLinesPreservingEndings (content : String) : List String :=
  if content.data.isEmpty then [""]
  else (splitPE [] content.data).map (fun l => ⟨l⟩)

/-- The pure content computation of `readFileInternal(filePath, offset,
length)` once the path is validated and the content read: return the whole
content on the fast path (`offset === 0 && length >= MAX_SAFE_INTEGER`),
otherwise split preserving endings, `slice(offset, offset + length)`, and
join with no separator. -/
def readFileInternal_model (content : String) (offset length : Nat) : String :=
  if offset = 0 ∧ length ≥ MAX_SAFE_INTEGER then content
  else joinAll (((splitLinesPreservingEndings content).drop offset).take length)

/-! ### Forward reader (`readFromStartWithReadline`) -/

/-- The `for await (const line of rl)` loop of `readFromStartWithReadline`:
skip lines before `offset`, collect at most `length` lines, break as soon
as `length` lines are collected. -/
def readStartLoop (offset length : Nat) : Nat → List String → List String → List String
  | _, [], acc => acc
  | lineNumber, ln :: rest, acc =>
    let acc' := if lineNumber ≥ offset ∧ acc.length < length then acc ++ [ln] else acc
    if acc'.length ≥ length then acc'
    else readStartLoop offset length (lineNumber + 1) rest acc'

/-- Lines returned by `readFromStartWithReadline(filePath, offset, length)`. -/
def readFromStartWithReadline_lines (content : String) (offset length : Nat) : List String :=
  readStartLoop offset length 0 (readlineSplit content) []

/-- Embeds `generateEnhancedStatusMessage` from `src/src/tools/filesystem.ts`. -/
def generateEnhancedStatusMessage (readLines offset : Nat) (totalLines : Option Nat)
    (isNegativeOffset : Bool) : String :=
  if isNegativeOffset then
    match totalLines with
    | some t => "[Reading last " ++ toString readLines ++ " lines (total: " ++ toString t ++ " lines)]"
    | none => "[Reading last " ++ toString readLines ++ " lines]"
  else
    match totalLines with
    | some t =>
      let endLine := offset + readLines
      let remainingLines := t - endLine
      if offset = 0 then
        "[Reading " ++ toString readLines ++ " lines from start (total: " ++ toString t
          ++ " lines, " ++ toString remainingLines ++ " remaining)]"
      else
        "[Reading " ++ toString readLines ++ " lines from line " ++ toString offset
          ++ " (total: " ++ toString t ++ " lines, " ++ toString remainingLines ++ " remaining)]"
    | none =>
      if offset = 0 then "[Reading " ++ toString readLines ++ " lines from start]"
      else "[Reading " ++ toString readLines ++ " lines from line " ++ toString offset ++ "]"

/-- Display content produced by `readFromStartWithReadline`: status header
plus blank line plus the newline-joined collected lines when status messages
are requested, just the joined lines otherwise. -/
def readFromStartWithReadline_display (content : String) (offset length : Nat)
    (includeStatusMessage : Bool) (fileTotalLines : Option Nat) : String :=
  let result := readFromStartWithReadline_lines content offset length
  if includeStatusMessage then
    generateEnhancedStatusMessage result.length offset fileTotalLines false
      ++ "\n\n" ++ joinWith "\n" result
  else joinWith "\n" result

/-! ### Tail strategy 1: `readLastNLinesReverse` (backward chunked read) -/

/-- The `while (position > 0 && lines.length < n)` loop of
`readLastNLinesReverse`: read a chunk of up to `chunkSize` bytes ending at
`position`, split `chunk + partial` on `\n`, keep the head as the new
partial first line, prepend the remaining pieces. The fuel argument is an
upper bound on the number of iterations (each iteration strictly decreases
`position`, so `position + 1` fuel at the call site is enough). -/
def revReadLoop (content : List Char) (chunkSize n : Nat) :
    Nat → Nat → List String → String → Nat × List String × String
  | 0, position, lines, pLine => (position, lines, pLine)
  | fuel + 1, position, lines, pLine =>
    if position > 0 ∧ lines.length < n then
      let readSize := min chunkSize position
      let nextPos := position - readSize
      let chunk : List Char := (content.drop nextPos).take readSize
      let text := String.mk chunk ++ pLine
      let chunkLines := splitNl text
      let pLine' := chunkLines.headD ""
      let lines' := chunkLines.tail ++ lines
      revReadLoop content chunkSize n fuel nextPos lines' pLine'
    else (position, lines, pLine)

/-- Lines returned by `readLastNLinesReverse(filePath, n)`: run the backward
loop from end of file, prepend the final partial line when the loop reached
the start of the file and the partial line is non-empty (JavaScript
truthiness of the accumulated string), then `slice(-n)`. -/
def readLastNLinesReverse_lines (content : String) (n : Nat) : List String :=
  let fileSize := content.data.length
  let st := revReadLoop content.data CHUNK_SIZE n (fileSize + 1) fileSize [] ""
  let lines := if st.1 = 0 ∧ st.2.2 ≠ "" then st.2.2 :: st.2.1 else st.2.1
  takeLast n lines

/-- Display content of `readLastNLinesReverse`. -/
def readLastNLinesReverse_display (content : String) (n : Nat)
    (includeStatusMessage : Bool) (fileTotalLines : Option Nat) : String :=
  let result := readLastNLinesReverse_lines content n
  if includeStatusMessage then
    generateEnhancedStatusMessage result.length 0 fileTotalLines true
      ++ "\n\n" ++ joinWith "\n" result
  else joinWith "\n" result

/-! ### Tail strategy 2: `readFromEndWithReadline` (circular buffer) -/

/-- The mutable state of `readFromEndWithReadline`: the fixed-capacity
buffer (`new Array(requestedLines)`, holes modelled as `none`), the write
index, and the number of lines seen. -/
structure CircBuf where
  buf : List (Option String)
  idx : Nat
  total : Nat

/-- One iteration of the readline loop: `buffer[bufferIndex] = line;
bufferIndex = (bufferIndex + 1) % requestedLines; totalLines++`. -/
def cbStep (n : Nat) (s : CircBuf) (line : String) : CircBuf :=
  { buf := s.buf.set s.idx (some line), idx := (s.idx + 1) % n, total := s.total + 1 }

/-- Extraction of the result in rotation order: when at least `n` lines were
seen, `buffer.slice(bufferIndex)` followed by `buffer.slice(0, bufferIndex)`
with undefined holes filtered out; otherwise `buffer.slice(0, totalLines)`
(which contains no holes, so filtering is the identity there). -/
def cbExtract (n : Nat) (s : CircBuf) : List String :=
  if s.total ≥ n then ((s.buf.drop s.idx) ++ (s.buf.take s.idx)).filterMap id
  else (s.buf.take s.total).filterMap id

/-- Lines returned by `readFromEndWithReadline(filePath, requestedLines)`:
feed every readline record through the circular buffer and extract. -/
def readFromEndWithReadline_lines (content : String) (requestedLines : Nat) : List String :=
  cbExtract requestedLines
    ((readlineSplit content).foldl (cbStep requestedLines)
      ⟨List.replicate requestedLines none, 0, 0⟩)

/-- Display content of `readFromEndWithReadline`. -/
def readFromEndWithReadline_display (content : String) (requestedLines : Nat)
    (includeStatusMessage : Bool) (fileTotalLines : Option Nat) : String :=
  let result := readFromEndWithReadline_lines content requestedLines
  if includeStatusMessage then
    generateEnhancedStatusMessage result.length 0 fileTotalLines true
      ++ "\n\n" ++ joinWith "\n" result
  else joinWith "\n" result

/-! ### `readFromEstimatedPosition` (deep offsets in very large files) -/

/-- The sampling loop of `readFromEstimatedPosition`: accumulate
`Buffer.byteLength(line) + 1` per line (ASCII model: one byte per
character) until `SAMPLE_SIZE` bytes are seen; returns
`(sampleLines, bytesRead)`. -/
def sampleScan : List String → Nat → Nat → Nat × Nat
  | [], n, b => (n, b)
  | ln :: rest, n, b =>
    let b' := b + ln.data.length + 1
    if b' ≥ SAMPLE_SIZE then (n + 1, b') else sampleScan rest (n + 1) b'

/-- Display content of `readFromEstimatedPosition(filePath, offset, length)`:
estimate a byte position from the sampled average line length (the source's
floating-point `Math.floor(offset * (bytesRead / sampleLines))` is modelled
by exact rational arithmetic), seek there, drop a possibly-partial first
line when not starting at byte 0, and collect `length` lines. Falls back to
the forward reader when the sample is empty. -/
def readFromEstimatedPosition_display (content : String) (offset length : Nat)
    (includeStatusMessage : Bool) (fileTotalLines : Option Nat) : String :=
  let sample := sampleScan (readlineSplit content) 0 0
  if sample.1 = 0 then
    readFromStartWithReadline_display content offset length includeStatusMessage fileTotalLines
  else
    let estimatedBytePosition := offset * sample.2 / sample.1
    let startPosition := min estimatedBytePosition content.data.length
    let ls := readlineSplit (String.mk (content.data.drop startPosition))
    let result := (if startPosition > 0 then ls.drop 1 else ls).take length
    if includeStatusMessage then
      generateEnhancedStatusMessage result.length offset fileTotalLines false
        ++ "\n\n" ++ joinWith "\n" result
    else joinWith "\n" result

/-! ### Strategy router (`readFileWithSmartPositioning`) -/

/-- The display content produced by `readFileWithSmartPositioning(filePath,
offset, length, mimeType, includeStatusMessage)` for text files: negative
offsets select a tail strategy by file size and requested count, forward
offsets select the simple forward reader or, for large files and deep
offsets, the estimated-position reader. File size is the content byte
length (ASCII model). -/
def readFileWithSmartPositioning_model (content : String) (offset : Int) (length : Nat)
    (includeStatusMessage : Bool) : String :=
  let fileSize := content.data.length
  let totalLines := getFileLineCount_model content
  if offset < 0 then
    let requestedLines := offset.natAbs
    if fileSize > LARGE_FILE_THRESHOLD ∧ requestedLines ≤ SMALL_READ_THRESHOLD then
      readLastNLinesReverse_display content requestedLines includeStatusMessage totalLines
    else
      readFromEndWithReadline_display content requestedLines includeStatusMessage totalLines
  else
    let off := offset.toNat
    if fileSize < LARGE_FILE_THRESHOLD ∨ off = 0 then
      readFromStartWithReadline_display content off length includeStatusMessage totalLines
    else if off > DEEP_OFFSET_THRESHOLD then
      readFromEstimatedPosition_display content off length includeStatusMessage totalLines
    else
      readFromStartWithReadline_display content off length includeStatusMessage totalLines

/-! ### Claim C4, counterexample -/

/-- C4, counterexample. The claim asserts that both tail strategies return
exactly the last `k` entries of the full content split on line boundaries.
For the newline-terminated content `"a\nb\n"` and `k = 2` (line count at
least 2 under either line model) the two strategies return different lists —
the backward chunked reader follows raw `split('\n')` semantics and yields
`["b", ""]`, while the circular-buffer reader follows readline semantics and
yields `["a", "b"]` — so they cannot both equal the common reference that
the claim specifies. -/
theorem c4_tail_strategies_disagree_counterexample :
    readLastNLinesReverse_lines "a\nb\n" 2 = ["b", ""] ∧
    readFromEndWithReadline_lines "a\nb\n" 2 = ["a", "b"] ∧
    readLastNLinesReverse_lines "a\nb\n" 2 ≠ readFromEndWithReadline_lines "a\nb\n" 2 := by
  decide

/-! ### Claim C4, amended: circular-buffer tail correctness -/

/-- Setting the element at the boundary index of an append writes into the
head of the second list. -/
theorem set_append_len {α : Type} (A B : List α) (v : α) :
    (A ++ B).set A.length v = A ++ B.set 0 v := by
  induction A with
  | nil => simp
  | cons a as ih => simp [ih]

/-- Appending one element shifts the `takeLast n` window by one. -/
theorem takeLast_append_one (n : Nat) (ls : List String) (x : String)
    (hn : 1 ≤ n) (h : n ≤ ls.length) :
    takeLast n (ls ++ [x]) = (takeLast n ls).drop 1 ++ [x] := by
  unfold takeLast
  rw [List.length_append]
  simp only [List.length_cons, List.length_nil, Nat.zero_add]
  rw [List.drop_append_of_le_length (by omega : ls.length + 1 - n ≤ ls.length)]
  rw [List.drop_drop]
  congr 2
  omega

/-- Invariant of the circular buffer after feeding the lines `ls`: before
the buffer wraps, the written prefix mirrors `ls` followed by the unwritten
holes; after wrapping, the buffer splits at the write index into a newer
block `X` and an older block `Y` whose rotation `Y ++ X` is exactly the
last `n` lines. -/
def cbInv (n : Nat) (ls : List String) (s : CircBuf) : Prop :=
  s.total = ls.length ∧
  ((ls.length < n ∧ s.idx = ls.length ∧
      s.buf = ls.map some ++ List.replicate (n - ls.length) none) ∨
   (n ≤ ls.length ∧ ∃ X Y : List String,
      s.idx = X.length ∧ X.length < n ∧ Y.length = n - X.length ∧
      s.buf = X.map some ++ Y.map some ∧ Y ++ X = takeLast n ls))

/-- The invariant holds for the freshly allocated buffer. -/
theorem cbInv_init (n : Nat) (hn : 1 ≤ n) :
    cbInv n [] ⟨List.replicate n none, 0, 0⟩ := by
  refine ⟨rfl, Or.inl ⟨hn, rfl, ?_⟩⟩
  simp

/-- One write preserves the invariant. -/
theorem cbInv_step (n : Nat) (hn : 1 ≤ n) (ls : List String) (s : CircBuf) (line : String)
    (h : cbInv n ls s) : cbInv n (ls ++ [line]) (cbStep n s line) := by
  obtain ⟨htot, hcase⟩ := h
  have htot' : (cbStep n s line).total = (ls ++ [line]).length := by
    show s.total + 1 = _
    rw [htot]; simp
  rcases hcase with ⟨hlt, hidx, hbuf⟩ | ⟨hge, X, Y, hidx, hXlt, hYlen, hbuf, hYX⟩
  · -- before the buffer wraps
    have hbuf' : (cbStep n s line).buf
        = (ls ++ [line]).map some ++ List.replicate (n - (ls.length + 1)) none := by
      show s.buf.set s.idx (some line) = _
      rw [hbuf, hidx]
      rw [show (ls.map some ++ List.replicate (n - ls.length) (none : Option String)).set
            ls.length (some line)
          = ls.map some
              ++ (List.replicate (n - ls.length) (none : Option String)).set 0 (some line) from by
        simp]
      rw [show List.replicate (n - ls.length) (none : Option String)
            = none :: List.replicate (n - ls.length - 1) none from by
          rw [← List.replicate_succ]; congr 1; omega]
      rw [List.set_cons_zero, List.map_append, List.append_assoc, Nat.sub_sub]
      rfl
    by_cases hfull : ls.length + 1 < n
    · refine ⟨htot', Or.inl ⟨by simpa using hfull, ?_, ?_⟩⟩
      · show (s.idx + 1) % n = _
        rw [hidx, Nat.mod_eq_of_lt hfull]; simp
      · rw [hbuf']; simp
    · have heq : ls.length + 1 = n := by omega
      refine ⟨htot', Or.inr ⟨by simp; omega, [], ls ++ [line], ?_, hn, ?_, ?_, ?_⟩⟩
      · show (s.idx + 1) % n = _
        rw [hidx, heq, Nat.mod_self]; rfl
      · simp; omega
      · rw [hbuf', heq]; simp
      · simp [takeLast, heq]
  · -- after the buffer has wrapped
    have hY : Y ≠ [] := by
      intro hY
      rw [hY] at hYlen
      simp at hYlen
      omega
    obtain ⟨y, ys, rfl⟩ : ∃ y ys, Y = y :: ys := by
      cases Y with
      | nil => exact absurd rfl hY
      | cons y ys => exact ⟨y, ys, rfl⟩
    have hbufset : (cbStep n s line).buf = X.map some ++ (some line :: ys.map some) := by
      show s.buf.set s.idx (some line) = _
      rw [hbuf, hidx]
      rw [show (X.map some ++ (y :: ys).map some).set X.length (some line)
          = X.map some ++ ((y :: ys).map some).set 0 (some line) from by
        simp]
      rfl
    have hTL : takeLast n (ls ++ [line]) = (ys ++ X) ++ [line] := by
      rw [takeLast_append_one n ls line hn hge, ← hYX]
      simp
    have hYlen' : ys.length + 1 = n - X.length := by simpa using hYlen
    by_cases hidxlt : X.length + 1 < n
    · refine ⟨htot', Or.inr ⟨by simp; omega, X ++ [line], ys, ?_, ?_, ?_, ?_, ?_⟩⟩
      · show (s.idx + 1) % n = _
        rw [hidx, Nat.mod_eq_of_lt hidxlt]; simp
      · simpa using hidxlt
      · simp; omega
      · rw [hbufset]; simp
      · rw [hTL]; simp
    · have heq : X.length + 1 = n := by omega
      have hys : ys = [] := by
        have : ys.length = 0 := by omega
        simpa using this
      subst hys
      refine ⟨htot', Or.inr ⟨by simp; omega, [], X ++ [line], ?_, by omega, ?_, ?_, ?_⟩⟩
      · show (s.idx + 1) % n = _
        rw [hidx, heq, Nat.mod_self]; rfl
      · simp; omega
      · rw [hbufset]; simp
      · rw [hTL]; simp

/-- Folding a line list through the circular buffer preserves the
invariant. -/
theorem cbInv_foldl (n : Nat) (hn : 1 ≤ n) :
    ∀ (ls2 ls1 : List String) (s : CircBuf), cbInv n ls1 s →
      cbInv n (ls1 ++ ls2) (ls2.foldl (cbStep n) s) := by
  intro ls2
  induction ls2 with
  | nil => intro ls1 s h; simpa using h
  | cons x xs ih =>
    intro ls1 s h
    have h2 := ih (ls1 ++ [x]) (cbStep n s x) (cbInv_step n hn ls1 s x h)
    simpa [List.append_assoc] using h2

/-- Extraction in rotation order returns the last `n` lines once at least
`n` lines were seen. -/
theorem cbExtract_of_inv (n : Nat) (ls : List String) (s : CircBuf)
    (h : cbInv n ls s) (hlen : n ≤ ls.length) :
    cbExtract n s = takeLast n ls := by
  obtain ⟨htot, hcase⟩ := h
  rcases hcase with ⟨hlt, _, _⟩ | ⟨_, X, Y, hidx, _, _, hbuf, hYX⟩
  · omega
  · unfold cbExtract
    rw [if_pos (by omega : s.total ≥ n), hbuf, hidx]
    rw [show (X.map some ++ Y.map some).drop X.length = Y.map some from by
      simp]
    rw [show (X.map some ++ Y.map some).take X.length = X.map some from by
      simp]
    rw [← List.map_append]
    simp [hYX]

/-- C4, amended. The claim as stated fails (see the counterexample: the two
tail strategies realize different line models and disagree on
newline-terminated content). What holds for the forward circular-buffer
strategy — the one the router selects for all files up to the large-file
threshold — is tail correctness under the terminator-stripping readline
line model: for a file whose readline line count `N` satisfies `N ≥ k ≥ 1`,
reading with offset `-k` returns exactly the last `k` readline lines. The
backward chunked strategy instead follows raw `split('\n')` semantics,
including a trailing empty entry for newline-terminated files. -/
theorem c4_circular_buffer_tail (content : String) (k : Nat) (h1 : 1 ≤ k)
    (h2 : k ≤ (readlineSplit content).length) :
    readFromEndWithReadline_lines content k = takeLast k (readlineSplit content) := by
  unfold readFromEndWithReadline_lines
  have hinv := cbInv_foldl k h1 (readlineSplit content) [] ⟨List.replicate k none, 0, 0⟩
    (cbInv_init k h1)
  rw [List.nil_append] at hinv
  exact cbExtract_of_inv k _ _ hinv h2

/-- Witness for `c4_circular_buffer_tail` on a three-line file. -/
theorem c4_circular_buffer_tail_witness :
    1 ≤ 2 ∧ 2 ≤ (readlineSplit "x\ny\nz").length ∧
    readFromEndWithReadline_lines "x\ny\nz" 2 = takeLast 2 (readlineSplit "x\ny\nz") :=
  ⟨by decide, by decide, c4_circular_buffer_tail "x\ny\nz" 2 (by decide) (by decide)⟩

/-! ### Claim C5: internal-mode round trip -/

/-- Every character of the input lands in exactly one piece of the
terminator-preserving split, in order. -/
theorem splitPE_flatten (cur l : List Char) : (splitPE cur l).flatten = cur ++ l := by
  induction cur, l using splitPE.induct <;> simp_all [splitPE]

/-- Concatenating string pieces built from character lists concatenates the
character lists. -/
theorem joinAll_map_mk (ls : List (List Char)) :
    joinAll (ls.map (fun l => ⟨l⟩)) = ⟨ls.flatten⟩ := by
  induction ls with
  | nil => rfl
  | cons l rest ih =>
    show (⟨l⟩ : String) ++ joinAll (rest.map (fun l => ⟨l⟩)) = _
    rw [ih]
    rfl

/-- Function `splitLinesPreservingEndings` loses no bytes: joining the pieces with no
separator reconstructs the content exactly. -/
theorem joinAll_splitLinesPreservingEndings (content : String) :
    joinAll (splitLinesPreservingEndings content) = content := by
  unfold splitLinesPreservingEndings
  by_cases h : content.data.isEmpty
  · rw [if_pos h]
    apply String.ext
    simp [joinAll, List.isEmpty_iff.mp h]
  · rw [if_neg h, joinAll_map_mk, splitPE_flatten]
    simp

/-- C5. For every content (in particular any mix of `\n` and `\r\n`
terminators), an internal-mode read with offset 0 and a length at least the
number of preserved-ending lines returns the content byte-identically: the
fast whole-file path returns it directly, and the split-slice-join path
reconstructs it because every line keeps its original terminator. -/
theorem c5_internal_round_trip (content : String) (length : Nat)
    (h : (splitLinesPreservingEndings content).length ≤ length) :
    readFileInternal_model content 0 length = content := by
  unfold readFileInternal_model
  by_cases hbig : length ≥ MAX_SAFE_INTEGER
  · simp [hbig]
  · rw [if_neg (by simp [hbig])]
    rw [List.drop_zero, List.take_of_length_le h]
    exact joinAll_splitLinesPreservingEndings content

/-- Witness for `c5_internal_round_trip` on content mixing `\r\n`, `\n` and
a lone `\r`. -/
theorem c5_internal_round_trip_witness :
    (splitLinesPreservingEndings "a\r\nb\nc\rd").length ≤ 10 ∧
    readFileInternal_model "a\r\nb\nc\rd" 0 10 = "a\r\nb\nc\rd" :=
  ⟨by decide, c5_internal_round_trip "a\r\nb\nc\rd" 10 (by decide)⟩

/-! ### Claim C10: forward read with offset at or past end of file -/

/-- When every line index stays below the requested offset, the forward
collection loop collects nothing. -/
theorem readStartLoop_past_end (off len : Nat) :
    ∀ (lines : List String) (i : Nat), i + lines.length ≤ off →
      readStartLoop off len i lines [] = [] := by
  intro lines
  induction lines with
  | nil => intro i _; rfl
  | cons ln rest ih =>
    intro i h
    rw [List.length_cons] at h
    unfold readStartLoop
    have h1 : ¬(i ≥ off ∧ ([] : List String).length < len) := by
      intro hc
      omega
    simp only [if_neg h1]
    by_cases h2 : ([] : List String).length ≥ len
    · simp only [if_pos h2]
    · simp only [if_neg h2]
      exact ih (i + 1) (by omega)

/-- Appending the empty string on the right is the identity. -/
theorem strAppendEmptyRight (s : String) : s ++ "" = s := by
  apply String.ext
  simp

/-- C10. For a file below the large-file threshold and a forward offset at
or past the end of the file, the smart-positioning read routes to the
forward readline strategy, collects zero content lines, and returns only
the status header (followed by the blank separator line) — no error is
raised. -/
theorem c10_offset_past_end (content : String) (offset : Int) (length : Nat)
    (hsize : content.data.length < LARGE_FILE_THRESHOLD)
    (hoff : 0 ≤ offset)
    (hpast : (readlineSplit content).length ≤ offset.toNat) :
    readFromStartWithReadline_lines content offset.toNat length = [] ∧
    readFileWithSmartPositioning_model content offset length true
      = generateEnhancedStatusMessage 0 offset.toNat (getFileLineCount_model content) false
          ++ "\n\n" := by
  have hlines : readFromStartWithReadline_lines content offset.toNat length = [] :=
    readStartLoop_past_end _ _ _ 0 (by simpa using hpast)
  refine ⟨hlines, ?_⟩
  unfold readFileWithSmartPositioning_model
  rw [if_neg (by omega : ¬offset < 0), if_pos (Or.inl hsize)]
  unfold readFromStartWithReadline_display
  simp only [hlines, List.length_nil]
  rw [show joinWith "\n" [] = "" from rfl, strAppendEmptyRight]
  simp

/-- Witness for `c10_offset_past_end` on a two-line file read from line 5. -/
theorem c10_offset_past_end_witness :
    readFromStartWithReadline_lines "a\nb" (Int.toNat 5) 3 = [] ∧
    readFileWithSmartPositioning_model "a\nb" 5 3 true
      = generateEnhancedStatusMessage 0 (Int.toNat 5) (getFileLineCount_model "a\nb") false
          ++ "\n\n" :=
  c10_offset_past_end "a\nb" 5 3 (by decide) (by decide) (by decide)

/-! ### Content search engines (search module: `searchCode`,
`searchCodeFallback`)

A corpus is modelled as one flat admitted directory of text files, each
given by its name and its `content.split('\n')` line list. Patterns are
modelled as literals (no regex metacharacters): for such patterns both the
external engine's matcher and the fallback's `new RegExp(pattern).test`
reduce to substring containment, case-folded when `ignoreCase` is set. -/

/-- A file of the search corpus: name and line list. -/
structure MFile where
  name : String
  lines : List String
deriving DecidableEq, Repr

/-- The uniform match record (`SearchResult` in the search module): file,
1-based line number, and the `match` text field (named `matchText` here
because `match` is reserved). -/
structure SearchResult where
  file : String
  line : Nat
  matchText : String
deriving DecidableEq, Repr

/-- Whether a line matches the (literal) pattern, with optional case
folding; embeds both `rg -i pattern` and `new RegExp(pattern, 'i').test`. -/
def matchesLine (ignoreCase : Bool) (pat ln : String) : Bool :=
  chInside (lowerIf ignoreCase pat).data (lowerIf ignoreCase ln).data

/-- Start positions of the pattern's occurrences inside a line (the
submatch positions the external engine reports for a literal pattern). -/
def occStarts (ignoreCase : Bool) (pat ln : String) : List Nat :=
  (List.range (ln.data.length + 1)).filter
    (fun i => chPref (lowerIf ignoreCase pat).data ((lowerIf ignoreCase ln).data.drop i))

/-- ASCII whitespace for `trimStr`. -/
def isWsChar (c : Char) : Bool :=
  c == ' ' || c == '\t' || c == '\n' || c == '\r' || c == '\x0b' || c == '\x0c'

/-- JavaScript `s.trim()` (ASCII whitespace model). -/
def trimStr (s : String) : String :=
  ⟨((s.data.dropWhile isWsChar).reverse.dropWhile isWsChar).reverse⟩

/-- The 1-based numbers and texts of the lines matching the pattern,
starting the scan at 0-based index `i`. -/
def matchingLineNumbers (ignoreCase : Bool) (pat : String) :
    Nat → List String → List (Nat × String)
  | _, [] => []
  | i, ln :: rest =>
    if matchesLine ignoreCase pat ln then
      (i + 1, ln) :: matchingLineNumbers ignoreCase pat (i + 1) rest
    else matchingLineNumbers ignoreCase pat (i + 1) rest

/-- Modelled from the spec: the external engine (the ripgrep binary is not
part of this repository) emits, per file, one JSON `match` record per
matching line — at most `maxResults` lines per file because of the `-m`
flag `searchCode` passes — with one submatch per occurrence of the literal
pattern; `searchCode`'s parse loop then pushes one result per submatch,
whose `match` field is the matched fragment of the original line. -/
def rgFileRecords (ignoreCase : Bool) (pat : String) (maxResults : Nat)
    (f : MFile) : List SearchResult :=
  ((matchingLineNumbers ignoreCase pat 0 f.lines).take maxResults).flatMap
    (fun p => (occStarts ignoreCase pat p.2).map
      (fun i => ⟨f.name, p.1, ⟨(p.2.data.drop i).take pat.data.length⟩⟩))

/-- Results of `searchCode` (the external-engine path) on the corpus. -/
def searchCode_model (corpus : List MFile) (pat : String) (ignoreCase : Bool)
    (maxResults : Nat) : List SearchResult :=
  corpus.flatMap (rgFileRecords ignoreCase pat maxResults)

/-- The context-record push of `searchCodeFallback`: for a match at 0-based
index `i`, the lines from `max(0, i - contextLines)` to
`min(lines.length - 1, i + contextLines)` other than `i` itself, trimmed,
as separate records. -/
def fbContextRecs (fname : String) (allLines : List String) (i contextLines : Nat) :
    List SearchResult :=
  let startIdx := i - contextLines
  let endIdx := min (allLines.length - 1) (i + contextLines)
  ((List.range (endIdx + 1 - startIdx)).map (fun k => startIdx + k)).filterMap
    (fun j => if j = i then none
      else some ⟨fname, j + 1, trimStr ((allLines.get? j).getD "")⟩)

/-- The per-file line loop of `searchCodeFallback`: on a matching line push
the trimmed line, then (when context was requested) the context records,
then break out of the file once `maxResults` is reached. -/
def fbScanLines (ignoreCase : Bool) (pat fname : String) (allLines : List String)
    (maxResults contextLines : Nat) :
    Nat → List String → List SearchResult → List SearchResult
  | _, [], acc => acc
  | i, ln :: rest, acc =>
    if matchesLine ignoreCase pat ln then
      let acc1 := acc ++ [⟨fname, i + 1, trimStr ln⟩]
      let acc2 := if contextLines > 0 then acc1 ++ fbContextRecs fname allLines i contextLines
        else acc1
      if acc2.length ≥ maxResults then acc2
      else fbScanLines ignoreCase pat fname allLines maxResults contextLines (i + 1) rest acc2
    else fbScanLines ignoreCase pat fname allLines maxResults contextLines (i + 1) rest acc

/-- The entry loop of `searchCodeFallback` over the admitted files of the
directory: stop when `maxResults` is reached, otherwise scan the next file's
content. -/
def fbFiles (ignoreCase : Bool) (pat : String) (maxResults contextLines : Nat) :
    List MFile → List SearchResult → List SearchResult
  | [], acc => acc
  | f :: rest, acc =>
    if acc.length ≥ maxResults then acc
    else fbFiles ignoreCase pat maxResults contextLines rest
      (fbScanLines ignoreCase pat f.name f.lines maxResults contextLines 0 f.lines acc)

/-- Results of `searchCodeFallback` (the native walker path) on the corpus. -/
def searchCodeFallback_model (corpus : List MFile) (pat : String) (ignoreCase : Bool)
    (maxResults contextLines : Nat) : List SearchResult :=
  fbFiles ignoreCase pat maxResults contextLines corpus []

/-- Number of matching lines in one file. -/
def fileMatchCount (ignoreCase : Bool) (pat : String) (f : MFile) : Nat :=
  (f.lines.filter (fun ln => matchesLine ignoreCase pat ln)).length

/-- Number of matching lines over the whole corpus. -/
def totalMatchCount (ignoreCase : Bool) (pat : String) (corpus : List MFile) : Nat :=
  (corpus.map (fileMatchCount ignoreCase pat)).sum

/-! ### Claims C6 and C9, counterexamples -/

/-- C6, counterexample. On the one-file corpus `f.txt : ["hello world"]`
with pattern `hello`, the fallback path produces the record whose text is
the trimmed whole line `"hello world"`, while the external-engine path
produces only the record whose text is the matched fragment `"hello"` — the
(file, line, text) sets of the two engines differ. -/
theorem c6_match_text_counterexample :
    (⟨"f.txt", 1, "hello world"⟩ : SearchResult)
        ∈ searchCodeFallback_model [⟨"f.txt", ["hello world"]⟩] "hello" false 1000 0 ∧
    (⟨"f.txt", 1, "hello world"⟩ : SearchResult)
        ∉ searchCode_model [⟨"f.txt", ["hello world"]⟩] "hello" false 1000 ∧
    (⟨"f.txt", 1, "hello"⟩ : SearchResult)
        ∈ searchCode_model [⟨"f.txt", ["hello world"]⟩] "hello" false 1000 := by
  decide

/-- C9, counterexample. With `maxResults = 1` and one context line, the
fallback path returns 3 records for the file `["a", "m b", "c"]` and pattern
`m`: the match plus two context records are pushed before the bound is
re-checked. And the external path's `-m 1` caps matched lines per file, so
two one-match files yield 2 records under the same global bound of 1. -/
theorem c9_max_results_counterexample :
    (searchCodeFallback_model [⟨"f.txt", ["a", "m b", "c"]⟩] "m" false 1 1).length = 3 ∧
    (searchCode_model [⟨"f1", ["m"]⟩, ⟨"f2", ["m"]⟩] "m" false 1).length = 2 := by
  decide

/-! ### Claim C9, amended: the fallback honors the bound without context -/

/-- One-step unfolding of the fallback line scan at `contextLines = 0`. -/
theorem fbScanLines_cons (ic : Bool) (pat fname : String) (allLines : List String)
    (maxResults i : Nat) (ln : String) (rest : List String) (acc : List SearchResult) :
    fbScanLines ic pat fname allLines maxResults 0 i (ln :: rest) acc
      = if matchesLine ic pat ln then
          (if (acc ++ [(⟨fname, i + 1, trimStr ln⟩ : SearchResult)]).length ≥ maxResults
            then acc ++ [(⟨fname, i + 1, trimStr ln⟩ : SearchResult)]
            else fbScanLines ic pat fname allLines maxResults 0 (i + 1) rest
              (acc ++ [(⟨fname, i + 1, trimStr ln⟩ : SearchResult)]))
        else fbScanLines ic pat fname allLines maxResults 0 (i + 1) rest acc := by
  simp [fbScanLines]

/-- One-step unfolding of the fallback file loop. -/
theorem fbFiles_cons (ic : Bool) (pat : String) (maxResults contextLines : Nat)
    (f : MFile) (rest : List MFile) (acc : List SearchResult) :
    fbFiles ic pat maxResults contextLines (f :: rest) acc
      = if acc.length ≥ maxResults then acc
        else fbFiles ic pat maxResults contextLines rest
          (fbScanLines ic pat f.name f.lines maxResults contextLines 0 f.lines acc) := by
  simp [fbFiles]

/-- With no context lines, the line scan never grows the accumulator past
the bound: each push is immediately followed by the break check. -/
theorem fbScanLines_bound (ic : Bool) (pat fname : String) (allLines : List String)
    (maxResults : Nat) :
    ∀ (rest : List String) (i : Nat) (acc : List SearchResult),
      acc.length < maxResults →
      (fbScanLines ic pat fname allLines maxResults 0 i rest acc).length ≤ maxResults := by
  intro rest
  induction rest with
  | nil => intro i acc h; exact Nat.le_of_lt h
  | cons ln rest ih =>
    intro i acc h
    rw [fbScanLines_cons]
    by_cases hm : matchesLine ic pat ln
    · rw [if_pos hm]
      by_cases hbr : (acc ++ [(⟨fname, i + 1, trimStr ln⟩ : SearchResult)]).length ≥ maxResults
      · rw [if_pos hbr]
        simp
        omega
      · rw [if_neg hbr]
        exact ih (i + 1) _ (by simp at hbr ⊢; omega)
    · rw [if_neg hm]
      exact ih (i + 1) acc h

/-- The file loop preserves the bound. -/
theorem fbFiles_bound (ic : Bool) (pat : String) (maxResults : Nat) :
    ∀ (corpus : List MFile) (acc : List SearchResult),
      acc.length ≤ maxResults →
      (fbFiles ic pat maxResults 0 corpus acc).length ≤ maxResults := by
  intro corpus
  induction corpus with
  | nil => intro acc h; exact h
  | cons f rest ih =>
    intro acc h
    rw [fbFiles_cons]
    by_cases hbr : acc.length ≥ maxResults
    · rw [if_pos hbr]; exact h
    · rw [if_neg hbr]
      exact ih _ (fbScanLines_bound ic pat f.name f.lines maxResults f.lines 0 acc (by omega))

/-- C9, amended. The claim as stated fails (see the counterexample: context
records are appended without re-checking the cap, and the external path's
`-m` caps matched lines per file rather than total records). What holds:
with `contextLines = 0` the native fallback path returns at most
`maxResults` match records, for every corpus, pattern, case flag and
bound. -/
theorem c9_fallback_bound (corpus : List MFile) (pat : String) (ignoreCase : Bool)
    (maxResults : Nat) :
    (searchCodeFallback_model corpus pat ignoreCase maxResults 0).length ≤ maxResults :=
  fbFiles_bound ignoreCase pat maxResults corpus [] (Nat.zero_le _)

/-! ### Claim C6, amended: the engines agree on (file, line) pairs -/

/-- Substring containment is equivalent to a prefix match at some start
position. -/
theorem chInside_iff (pat s : List Char) :
    chInside pat s = true ↔ ∃ i, i ≤ s.length ∧ chPref pat (s.drop i) = true := by
  induction s with
  | nil =>
    constructor
    · intro h; exact ⟨0, Nat.le_refl 0, h⟩
    · rintro ⟨i, hi, hp⟩
      have hz : i = 0 := by simpa using hi
      subst hz
      simpa using hp
  | cons a rest ih =>
    rw [show chInside pat (a :: rest) = (chPref pat (a :: rest) || chInside pat rest) from rfl]
    rw [Bool.or_eq_true, ih]
    constructor
    · rintro (h | ⟨i, hi, hp⟩)
      · exact ⟨0, Nat.zero_le _, by simpa using h⟩
      · exact ⟨i + 1, by simp; omega, by simpa using hp⟩
    · rintro ⟨i, hi, hp⟩
      cases i with
      | zero => exact Or.inl (by simpa using hp)
      | succ j => exact Or.inr ⟨j, by simp at hi; omega, by simpa using hp⟩

/-- Case folding preserves length. -/
theorem lowerIf_data_length (b : Bool) (s : String) :
    (lowerIf b s).data.length = s.data.length := by
  cases b <;> simp [lowerIf]

/-- A matching line has at least one occurrence start position. -/
theorem occStarts_ne_nil (ic : Bool) (pat ln : String)
    (h : matchesLine ic pat ln = true) : occStarts ic pat ln ≠ [] := by
  unfold matchesLine at h
  rw [chInside_iff] at h
  obtain ⟨i, hi, hp⟩ := h
  have hmem : i ∈ occStarts ic pat ln := by
    unfold occStarts
    rw [List.mem_filter]
    refine ⟨List.mem_range.mpr ?_, hp⟩
    rw [lowerIf_data_length] at hi
    omega
  intro hnil
  rw [hnil] at hmem
  exact absurd hmem (List.not_mem_nil i)

/-- Every entry of the matching-line list indeed matches. -/
theorem matchingLineNumbers_mem_matches (ic : Bool) (pat : String) :
    ∀ (ls : List String) (i : Nat) (p : Nat × String),
      p ∈ matchingLineNumbers ic pat i ls → matchesLine ic pat p.2 = true := by
  intro ls
  induction ls with
  | nil => intro i p hp; simp [matchingLineNumbers] at hp
  | cons ln rest ih =>
    intro i p hp
    by_cases hm : matchesLine ic pat ln
    · rw [show matchingLineNumbers ic pat i (ln :: rest)
          = (i + 1, ln) :: matchingLineNumbers ic pat (i + 1) rest from by
        simp [matchingLineNumbers, hm]] at hp
      rcases List.mem_cons.mp hp with h | h
      · rw [h]; exact hm
      · exact ih (i + 1) p h
    · rw [show matchingLineNumbers ic pat i (ln :: rest)
          = matchingLineNumbers ic pat (i + 1) rest from by
        simp [matchingLineNumbers, hm]] at hp
      exact ih (i + 1) p hp

/-- The matching-line list has one entry per line passing the filter,
independently of the start index. -/
theorem matchingLineNumbers_length (ic : Bool) (pat : String) :
    ∀ (ls : List String) (i : Nat),
      (matchingLineNumbers ic pat i ls).length
        = (ls.filter (fun ln => matchesLine ic pat ln)).length := by
  intro ls
  induction ls with
  | nil => intro i; rfl
  | cons ln rest ih =>
    intro i
    by_cases hm : matchesLine ic pat ln <;>
      simp [matchingLineNumbers, List.filter_cons, hm, ih]

/-- The fallback's record list when no cap or context interferes: one
trimmed-line record per matching line, in corpus order. -/
def fbAll (ic : Bool) (pat : String) (corpus : List MFile) : List SearchResult :=
  corpus.flatMap (fun f => (matchingLineNumbers ic pat 0 f.lines).map
    (fun p => ⟨f.name, p.1, trimStr p.2⟩))

/-- The external engine's record list when no cap interferes: one
fragment record per occurrence on each matching line, in corpus order. -/
def rgAll (ic : Bool) (pat : String) (corpus : List MFile) : List SearchResult :=
  corpus.flatMap (fun f => (matchingLineNumbers ic pat 0 f.lines).flatMap
    (fun p => (occStarts ic pat p.2).map
      (fun i => ⟨f.name, p.1, ⟨(p.2.data.drop i).take pat.data.length⟩⟩)))

/-- The uncapped fallback list counts exactly the matching lines. -/
theorem fbAll_length (ic : Bool) (pat : String) (corpus : List MFile) :
    (fbAll ic pat corpus).length = totalMatchCount ic pat corpus := by
  induction corpus with
  | nil => rfl
  | cons f rest ih =>
    simp only [fbAll, List.flatMap_cons, List.length_append, List.length_map] at ih ⊢
    rw [matchingLineNumbers_length, ih]
    simp [totalMatchCount, fileMatchCount]

/-- Below-cap runs of the fallback line scan append exactly the matching
records. -/
theorem fbScanLines_no_cap (ic : Bool) (pat fname : String) (allLines : List String)
    (maxResults : Nat) :
    ∀ (rest : List String) (i : Nat) (acc : List SearchResult),
      acc.length + (matchingLineNumbers ic pat i rest).length ≤ maxResults →
      fbScanLines ic pat fname allLines maxResults 0 i rest acc
        = acc ++ (matchingLineNumbers ic pat i rest).map
            (fun p => ⟨fname, p.1, trimStr p.2⟩) := by
  intro rest
  induction rest with
  | nil => intro i acc h; simp [fbScanLines, matchingLineNumbers]
  | cons ln rest ih =>
    intro i acc h
    rw [fbScanLines_cons]
    by_cases hm : matchesLine ic pat ln
    · rw [show matchingLineNumbers ic pat i (ln :: rest)
          = (i + 1, ln) :: matchingLineNumbers ic pat (i + 1) rest from by
        simp [matchingLineNumbers, hm]] at h ⊢
      rw [if_pos hm]
      by_cases hbr : (acc ++ [(⟨fname, i + 1, trimStr ln⟩ : SearchResult)]).length ≥ maxResults
      · rw [if_pos hbr]
        have hlen0 : matchingLineNumbers ic pat (i + 1) rest = [] := by
          apply List.eq_nil_of_length_eq_zero
          simp at h hbr
          omega
        simp [hlen0]
      · rw [if_neg hbr]
        rw [ih (i + 1) (acc ++ [(⟨fname, i + 1, trimStr ln⟩ : SearchResult)])
          (by simp at h ⊢; omega)]
        simp
    · rw [show matchingLineNumbers ic pat i (ln :: rest)
          = matchingLineNumbers ic pat (i + 1) rest from by
        simp [matchingLineNumbers, hm]] at h ⊢
      rw [if_neg hm]
      exact ih (i + 1) acc h

/-- Below-cap runs of the fallback file loop produce the full uncapped
record list. -/
theorem fbFiles_no_cap (ic : Bool) (pat : String) (maxResults : Nat) :
    ∀ (corpus : List MFile) (acc : List SearchResult),
      acc.length + totalMatchCount ic pat corpus ≤ maxResults →
      fbFiles ic pat maxResults 0 corpus acc = acc ++ fbAll ic pat corpus := by
  intro corpus
  induction corpus with
  | nil => intro acc h; simp [fbFiles, fbAll]
  | cons f rest ih =>
    intro acc h
    have hsum : acc.length + (fileMatchCount ic pat f + totalMatchCount ic pat rest)
        ≤ maxResults := by
      simpa [totalMatchCount] using h
    rw [fbFiles_cons]
    by_cases hbr : acc.length ≥ maxResults
    · rw [if_pos hbr]
      have hnil : fbAll ic pat (f :: rest) = [] := by
        apply List.eq_nil_of_length_eq_zero
        rw [fbAll_length]
        simp [totalMatchCount] at hsum ⊢
        omega
      simp [hnil]
    · rw [if_neg hbr]
      have hcount : (matchingLineNumbers ic pat 0 f.lines).length = fileMatchCount ic pat f := by
        rw [matchingLineNumbers_length]; rfl
      rw [fbScanLines_no_cap ic pat f.name f.lines maxResults f.lines 0 acc
        (by rw [hcount]; omega)]
      rw [ih _ (by simp [hcount]; omega)]
      simp [fbAll, List.append_assoc]

/-- Below-cap runs of the external path produce the full uncapped record
list: the per-file `-m` cap never truncates. -/
theorem searchCode_no_cap (ic : Bool) (pat : String) (maxResults : Nat) :
    ∀ (corpus : List MFile), totalMatchCount ic pat corpus ≤ maxResults →
      searchCode_model corpus pat ic maxResults = rgAll ic pat corpus := by
  intro corpus
  induction corpus with
  | nil => intro h; rfl
  | cons f rest ih =>
    intro h
    have hsum : fileMatchCount ic pat f + totalMatchCount ic pat rest ≤ maxResults := by
      simpa [totalMatchCount] using h
    simp only [searchCode_model, rgAll, List.flatMap_cons] at ih ⊢
    congr 1
    · unfold rgFileRecords
      have hfc : (matchingLineNumbers ic pat 0 f.lines).length = fileMatchCount ic pat f := by
        rw [matchingLineNumbers_length]
        rfl
      rw [List.take_of_length_le (by rw [hfc]; omega)]
    · exact ih (by omega)

/-- C6, amended. The claim as stated fails because the two engines report
different `match` texts (fragment vs trimmed whole line — see the
counterexample). What does hold is (file, line) parity: on a flat corpus of
admitted files, for a literal pattern, with no context lines and a
`maxResults` bound at least the number of matching lines (so neither cap
truncates), a pair (file, 1-based line) appears among the external engine's
records iff it appears among the fallback's records. -/
theorem c6_engine_line_set_parity (corpus : List MFile) (pat : String) (ignoreCase : Bool)
    (maxResults : Nat) (hcap : totalMatchCount ignoreCase pat corpus ≤ maxResults)
    (f0 : String) (l0 : Nat) :
    (∃ r ∈ searchCode_model corpus pat ignoreCase maxResults, r.file = f0 ∧ r.line = l0) ↔
    (∃ r ∈ searchCodeFallback_model corpus pat ignoreCase maxResults 0,
      r.file = f0 ∧ r.line = l0) := by
  rw [searchCode_no_cap ignoreCase pat maxResults corpus hcap]
  rw [show searchCodeFallback_model corpus pat ignoreCase maxResults 0
      = fbAll ignoreCase pat corpus from by
    have := fbFiles_no_cap ignoreCase pat maxResults corpus [] (by simpa using hcap)
    simpa [searchCodeFallback_model] using this]
  unfold rgAll fbAll
  constructor
  · rintro ⟨r, hr, hf, hl⟩
    rw [List.mem_flatMap] at hr
    obtain ⟨f, hfc, hr⟩ := hr
    rw [List.mem_flatMap] at hr
    obtain ⟨p, hp, hr⟩ := hr
    rw [List.mem_map] at hr
    obtain ⟨ipos, _, rfl⟩ := hr
    refine ⟨⟨f.name, p.1, trimStr p.2⟩, ?_, hf, hl⟩
    rw [List.mem_flatMap]
    exact ⟨f, hfc, List.mem_map.mpr ⟨p, hp, rfl⟩⟩
  · rintro ⟨r, hr, hf, hl⟩
    rw [List.mem_flatMap] at hr
    obtain ⟨f, hfc, hr⟩ := hr
    rw [List.mem_map] at hr
    obtain ⟨p, hp, rfl⟩ := hr
    have hmatch := matchingLineNumbers_mem_matches ignoreCase pat f.lines 0 p hp
    obtain ⟨ipos, hipos⟩ :=
      List.exists_mem_of_ne_nil _ (occStarts_ne_nil ignoreCase pat p.2 hmatch)
    refine ⟨⟨f.name, p.1, ⟨(p.2.data.drop ipos).take pat.data.length⟩⟩, ?_, hf, hl⟩
    rw [List.mem_flatMap]
    exact ⟨f, hfc, List.mem_flatMap.mpr ⟨p, hp, List.mem_map.mpr ⟨ipos, hipos, rfl⟩⟩⟩

/-- Witness for `c6_engine_line_set_parity` on a one-file corpus. -/
theorem c6_engine_line_set_parity_witness :
    (∃ r ∈ searchCode_model [⟨"f", ["hello world"]⟩] "hello" false 1000,
        r.file = "f" ∧ r.line = 1) ↔
    (∃ r ∈ searchCodeFallback_model [⟨"f", ["hello world"]⟩] "hello" false 1000 0,
        r.file = "f" ∧ r.line = 1) :=
  c6_engine_line_set_parity [⟨"f", ["hello world"]⟩] "hello" false 1000 (by decide) "f" 1

/-! ### Claim C7: availability-probe memoization
(`checkRipgrepAvailability` in the search module)

The module-level memo `ripgrepAvailable : boolean | null` and the spawn
count are modelled as a state acted on by the handler executions the
cooperative scheduler can interleave:

* `invoke` — a call to `checkRipgrepAvailability` reaching the top of the
  function: when the memo is already non-null it returns the cached value,
  otherwise it spawns a probe process;
* `closeEvt code` — the probe's `close` handler: it assigns
  `ripgrepAvailable = (code === 0)` unconditionally;
* `timeoutEvt` — the 2-second `setTimeout` callback registered by the same
  invocation: the source never calls `clearTimeout`, so this handler runs
  even after `close` has settled the probe, and it assigns
  `ripgrepAvailable = false` unconditionally. -/

/-- Probe state: the memo flag and the number of probe processes spawned. -/
structure ProbeState where
  flag : Option Bool
  spawns : Nat
deriving DecidableEq, Repr

/-- Handler executions of `checkRipgrepAvailability`. -/
inductive ProbeEvent where
  | invoke
  | closeEvt (code : Nat)
  | timeoutEvt
deriving DecidableEq, Repr

/-- Effect of one handler execution on the probe state, following the
source's handler bodies. -/
def probeStep (s : ProbeState) : ProbeEvent → ProbeState
  | .invoke => if s.flag.isSome then s else { s with spawns := s.spawns + 1 }
  | .closeEvt code => { s with flag := some (code == 0) }
  | .timeoutEvt => { s with flag := some false }

/-- Run a schedule of handler executions from the initial state
(`ripgrepAvailable = null`, no probe spawned). -/
def probeRun (events : List ProbeEvent) : ProbeState :=
  events.foldl probeStep ⟨none, 0⟩

/-- C7. The claim says the memo is written at most once and concurrent
first calls spawn exactly one probe. Both parts fail on the code: after a
probe closes successfully (memo `some true`), the never-cleared 2-second
timeout handler still runs and overwrites the memo to `some false`; and two
invocations interleaved before the first probe settles both observe a null
memo and spawn two probes. -/
theorem c7_probe_memo_code_bug :
    (probeRun [.invoke, .closeEvt 0]).flag = some true ∧
    (probeRun [.invoke, .closeEvt 0, .timeoutEvt]).flag = some false ∧
    (probeRun [.invoke, .invoke]).spawns = 2 := by
  decide

/-! ### Claim C8: filename search timeout
(`searchFiles` in `src/src/tools/filesystem.ts`)

The directory tree is abstract: a `dir` node carries the wall-clock cost of
its `readdir` (the time oracle — the model's clock advances only there).
`validatePath` on visited entries is abstracted to an `gate` predicate
(denied entries are skipped, as in the source's `catch { continue }`).
Recursion is driven by a fuel parameter so that runs compute by kernel
reduction; every theorem below is fuel-generic, and any fuel exceeding the
number of tree nodes makes the model agree with the source's unbounded
recursion. -/

/-- A directory entry: a file, or a directory with its readdir cost and
children. -/
inductive FSNode where
  | file (name : String)
  | dir (name : String) (cost : Nat) (children : List FSNode)

/-- Mutable state of one `searchFiles` call: the shared `results` array,
the `searchCancelled` flag, and the elapsed wall clock. -/
structure WalkSt where
  results : List String
  cancelled : Bool
  clock : Nat
deriving DecidableEq, Repr

/-- Names of the file entries of a directory (the `entries.filter(isFile)`
pass). -/
def fileNames (children : List FSNode) : List String :=
  children.filterMap (fun n => match n with
    | .file nm => some nm
    | .dir _ _ _ => none)

/-- The file loop of `search(currentPath, depth)`: per file, break on
cancellation or a full result list, skip entries `validatePath` rejects,
record the full path on a substring match of the name. -/
def walkFiles (gate : String → Bool) (pattern : String) (maxResults : Nat)
    (curPath : String) : List String → WalkSt → WalkSt
  | [], st => st
  | nm :: rest, st =>
    if st.cancelled ∨ st.results.length ≥ maxResults then st
    else
      let fullPath := curPath ++ "/" ++ nm
      if gate fullPath then
        if strContains nm pattern then
          walkFiles gate pattern maxResults curPath rest
            { st with results := st.results ++ [fullPath] }
        else walkFiles gate pattern maxResults curPath rest st
      else walkFiles gate pattern maxResults curPath rest st

mutual

/-- The body of `search(currentPath, depth)` once called on a directory
with readdir cost `cost` and entries `children`: the cancellation /
result-cap / depth guard, the `Date.now()` deadline check that sets
`searchCancelled`, the readdir (advancing the clock by `cost`), the file
pass, then the directory pass. -/
def searchNode (gate : String → Bool) (pattern : String)
    (maxResults maxDepth timeoutMs : Nat) (excludeDirs : List String) :
    Nat → String → Nat → Nat → List FSNode → WalkSt → WalkSt
  | 0, _, _, _, _, st => st
  | fuel + 1, curPath, depth, cost, children, st =>
    if st.cancelled ∨ st.results.length ≥ maxResults ∨ depth > maxDepth then st
    else if st.clock > timeoutMs then { st with cancelled := true }
    else
      let st1 := { st with clock := st.clock + cost }
      let st2 := walkFiles gate pattern maxResults curPath (fileNames children) st1
      walkDirs gate pattern maxResults maxDepth timeoutMs excludeDirs fuel
        curPath depth children st2
termination_by structural fuel _ _ _ _ _ => fuel

/-- The directory loop of `search(currentPath, depth)`: per directory
entry, break on cancellation / full results / depth, skip excluded names,
skip entries `validatePath` rejects, record a matching directory name, then
recurse. File entries were handled by the file pass and are skipped here;
every step consumes one fuel unit. -/
def walkDirs (gate : String → Bool) (pattern : String)
    (maxResults maxDepth timeoutMs : Nat) (excludeDirs : List String) :
    Nat → String → Nat → List FSNode → WalkSt → WalkSt
  | _, _, _, [], st => st
  | 0, _, _, _ :: _, st => st
  | fuel + 1, curPath, depth, .file _ :: rest, st =>
    walkDirs gate pattern maxResults maxDepth timeoutMs excludeDirs fuel
      curPath depth rest st
  | fuel + 1, curPath, depth, .dir nm cost children :: rest, st =>
    if st.cancelled ∨ st.results.length ≥ maxResults ∨ depth ≥ maxDepth then st
    else if excludeDirs.contains nm then
      walkDirs gate pattern maxResults maxDepth timeoutMs excludeDirs fuel
        curPath depth rest st
    else
      let fullPath := curPath ++ "/" ++ nm
      if gate fullPath then
        let st1 := if strContains nm pattern then
            { st with results := st.results ++ [fullPath] }
          else st
        let st2 := searchNode gate pattern maxResults maxDepth timeoutMs excludeDirs
          fuel fullPath (depth + 1) cost children st1
        walkDirs gate pattern maxResults maxDepth timeoutMs excludeDirs fuel
          curPath depth rest st2
      else
        walkDirs gate pattern maxResults maxDepth timeoutMs excludeDirs fuel
          curPath depth rest st
termination_by structural fuel _ _ _ _ => fuel

end

/-- Outcome of a `searchFiles` call. -/
inductive SearchFilesOutcome where
  | success (results : List String)
  | timedOut
  | rootDenied
deriving DecidableEq, Repr

/-- The outcome assembly of `searchFiles`: validate the root (a denial
rethrows), race the walker against the timeout promise, and apply the
catch logic — on a timeout rejection, return the partial results when
non-empty, otherwise rethrow the timeout error. `timerDelivered` models
the cooperative-scheduling choice of whether the timeout promise's
rejection settles the race before the walker's own completion does; it can
only matter when the walk's clock exceeded the deadline (otherwise the
walker settles first). -/
def searchFiles_model (gate : String → Bool) (pattern : String)
    (maxResults maxDepth timeoutMs : Nat) (excludeDirs : List String)
    (fuel : Nat) (root : String) (rootCost : Nat) (rootChildren : List FSNode)
    (timerDelivered : Bool) : SearchFilesOutcome :=
  if gate root then
    let st := searchNode gate pattern maxResults maxDepth timeoutMs excludeDirs
      fuel root 0 rootCost rootChildren ⟨[], false, 0⟩
    if st.clock ≤ timeoutMs then .success st.results
    else if timerDelivered then
      if st.results.isEmpty then .timedOut else .success st.results
    else .success st.results
  else .rootDenied

/-- C8, counterexample. The claim says a search that exceeds its wall-clock
timeout with zero collected results always fails with a timeout error. With
a 10 ms deadline and a root directory whose readdir takes 100 ms and whose
single entry does not match, the walk settles after the deadline with no
results; when the walker's settlement wins the race (the `Date.now()` check
inside `search` returns normally before the timer callback runs), the call
returns an empty success — indistinguishable from "found nothing". -/
theorem c8_empty_timeout_counterexample :
    (searchNode (fun _ => true) "zzz" 1000 10 10 [] 5 "/r" 0 100 [FSNode.file "x"]
        ⟨[], false, 0⟩).clock > 10 ∧
    (searchNode (fun _ => true) "zzz" 1000 10 10 [] 5 "/r" 0 100 [FSNode.file "x"]
        ⟨[], false, 0⟩).results = [] ∧
    searchFiles_model (fun _ => true) "zzz" 1000 10 10 [] 5 "/r" 100 [FSNode.file "x"] false
      = .success [] := by
  decide

/-- C8, amended. When the timeout is delivered through the race (the timer
rejection settles the race first), the catch logic of `searchFiles` does
behave as the claim says: with at least one collected result the call
returns the partial list successfully, and with zero results it surfaces
the timeout error. The counterexample shows that the other interleaving —
the walker's internal deadline check settling first — returns an empty
success instead, so the claimed distinction does not hold on every
timed-out run. -/
theorem c8_timer_delivered_outcome (gate : String → Bool) (pattern : String)
    (maxResults maxDepth timeoutMs : Nat) (excludeDirs : List String)
    (fuel : Nat) (root : String) (rootCost : Nat) (rootChildren : List FSNode)
    (hAdmit : gate root = true)
    (hLate : timeoutMs < (searchNode gate pattern maxResults maxDepth timeoutMs excludeDirs
        fuel root 0 rootCost rootChildren ⟨[], false, 0⟩).clock) :
    searchFiles_model gate pattern maxResults maxDepth timeoutMs excludeDirs
        fuel root rootCost rootChildren true
      = (if (searchNode gate pattern maxResults maxDepth timeoutMs excludeDirs
            fuel root 0 rootCost rootChildren ⟨[], false, 0⟩).results.isEmpty
          then .timedOut
          else .success (searchNode gate pattern maxResults maxDepth timeoutMs excludeDirs
            fuel root 0 rootCost rootChildren ⟨[], false, 0⟩).results) := by
  unfold searchFiles_model
  rw [if_pos (by simp [hAdmit])]
  rw [if_neg (by omega)]
  rw [if_pos rfl]

/-- Witness for `c8_timer_delivered_outcome`: the counterexample's tree with
the timer delivered first surfaces the timeout error. -/
theorem c8_timer_delivered_outcome_witness :
    searchFiles_model (fun _ => true) "zzz" 1000 10 10 [] 5 "/r" 100 [FSNode.file "x"] true
      = (if (searchNode (fun _ => true) "zzz" 1000 10 10 [] 5 "/r" 0 100 [FSNode.file "x"]
            ⟨[], false, 0⟩).results.isEmpty
          then SearchFilesOutcome.timedOut
          else .success (searchNode (fun _ => true) "zzz" 1000 10 10 [] 5 "/r" 0 100
            [FSNode.file "x"] ⟨[], false, 0⟩).results) :=
  c8_timer_delivered_outcome (fun _ => true) "zzz" 1000 10 10 [] 5 "/r" 100 [FSNode.file "x"]
    (by decide) (by decide)

end DCMC
